import Mathlib

/-!
Verification of the possession-sequence pipeline:
event segmentation (`src/export_sequences.py`), frame-set extraction and
tracking-position resolution (`src/extract_Sequences_ball_positions.py`),
and orientation normalization plus fixed-length windowing
(`src/Positions_Data_converter.py`).

Conventions of the shallow embedding:
* Python `float` coordinate values are modelled as `ℚ` (the only arithmetic
  the code performs on them is negation, which is exact in both).
* A Python value that may be `None` is an `Option`.
* Python dictionaries are association lists in insertion order; the
  serialized `positions` object maps string frame keys to JSON arrays that
  may contain `null` entries, hence `List (String × List (Option ℚ))`.
* Code that can raise an exception returns `Except String`; the `.error`
  payload names the Python exception class.
-/

deriving instance DecidableEq for Except

namespace AnalyticsCup

/-! ## Positions_Data_converter.py — orientation normalization -/

/-- `should_flip_coordinates` (Positions_Data_converter.py line 12):
flip exactly when the label is the string `'right_to_left'`. -/
def should_flip_coordinates (attacking_side : String) : Bool :=
  attacking_side = "right_to_left"

/-- `flip_x_coordinate` (line 21): negate the x coordinate. -/
def flip_x_coordinate (x : ℚ) : ℚ := -x

/-- `flip_y_coordinate` (line 26): negate the y coordinate. -/
def flip_y_coordinate (y : ℚ) : ℚ := -y

/-- One sequence of the persisted `…_sequences_positions.json` artifact, the
input of `normalize_sequence_positions` and
`extract_sequences_with_n_positions`.  `sequence_id` is kept as the string the
code interpolates into window identities; `normalized` is absent (`none`) on
input and set by normalization. -/
structure PSeq where
  sequence_id : String
  team_id : Option Int
  attacking_side : Option String
  frames : List Int
  positions : List (String × List (Option ℚ))
  normalized : Option Bool := none
deriving DecidableEq, Repr

/-- The body of the flip loop of `normalize_sequence_positions`
(lines 56-71) applied to one `coords` array:
if `len(coords) >= 2`, read `x = coords[0]`, `y = coords[1]`,
`z = coords[2] if len(coords) > 2 else None`, negate `x` and `y`
(raising `TypeError` when either is `None`, as Python's unary minus does),
and append `z` only when it is not `None`; arrays shorter than 2 pass
through unchanged. -/
def flipCoordsArray (coords : List (Option ℚ)) : Except String (List (Option ℚ)) :=
  match coords with
  | x :: y :: rest =>
    let z : Option ℚ := rest.headD none
    match x, y with
    | some xv, some yv =>
      .ok ([some (flip_x_coordinate xv), some (flip_y_coordinate yv)] ++
           (match z with | some zv => [some zv] | none => []))
    | _, _ => .error "TypeError"
  | _ => .ok coords

/-- The flip loop of lines 55-71: rebuild the positions mapping entry by
entry, propagating the first `TypeError`. -/
def flipPositions :
    List (String × List (Option ℚ)) → Except String (List (String × List (Option ℚ)))
  | [] => .ok []
  | (k, c) :: rest =>
    match flipCoordsArray c with
    | .error e => .error e
    | .ok c' =>
      match flipPositions rest with
      | .error e => .error e
      | .ok r => .ok ((k, c') :: r)

/-- `normalize_sequence_positions` (lines 31-78).  A missing
`attacking_side` returns the sequence untouched (warning only); otherwise the
positions are flipped when `should_flip_coordinates` holds and the
`normalized` flag records whether a flip was applied. -/
def normalize_sequence_positions (seq : PSeq) : Except String PSeq :=
  match seq.attacking_side with
  | none => .ok seq
  | some side =>
    if should_flip_coordinates side then
      match flipPositions seq.positions with
      | .error e => .error e
      | .ok np => .ok { seq with positions := np, normalized := some true }
    else
      .ok { seq with normalized := some false }

/-! ## Positions_Data_converter.py — fixed-length windowing -/

/-- The per-frame coordinate dict `{'x': …, 'y': …}` built at lines 222-226;
the `z` key is present exactly when the source array has a third, non-null
entry, so a null third entry and an absent one both yield `z = none`. -/
structure Coord where
  x : Option ℚ
  y : Option ℚ
  z : Option ℚ
deriving DecidableEq, Repr

/-- Build the coordinate dict from an array already known to have length ≥ 2
(`x, y = coords[0], coords[1]`; `z = coords[2] if len(coords) > 2 else None`). -/
def mkCoord (c : List (Option ℚ)) : Coord :=
  { x := c.headD none
    y := (c.drop 1).headD none
    z := (c.drop 2).headD none }

/-- First-match lookup in the string-keyed positions mapping
(`frame_key in normalized_positions`). -/
def lookupStr : List (String × List (Option ℚ)) → String → Option (List (Option ℚ))
  | [], _ => none
  | (k, v) :: rest, key => if k = key then some v else lookupStr rest key

/-- The collection loop of lines 215-228: walk `frames` in order, keep the
frames whose key is present in the positions mapping with an array of length
≥ 2, and record the coordinate dict together with the frame number
(`all_coords` and `all_frames_in_order`, zipped). -/
def collectPairs (frames : List Int) (positions : List (String × List (Option ℚ))) :
    List (Coord × Int) :=
  frames.filterMap fun fr =>
    match lookupStr positions (toString fr) with
    | some coords => if 2 ≤ coords.length then some (mkCoord coords, fr) else none
    | none => none

/-- One row of the combined output CSV (lines 244-252); `coordinates` keeps
the list the code serializes as `coordinates_json`. -/
structure WindowRow where
  match_id : String
  sequence_id : String
  team_id : Option Int
  attacking_side : Option String
  normalized : Bool
  num_positions : Nat
  coordinates : List Coord
deriving DecidableEq, Repr

/-- One row of the frame-range CSV (lines 253-260). -/
structure FrameRangeRow where
  match_id : String
  sequence_id : String
  start_frame : Int
  end_frame : Int
deriving DecidableEq, Repr

/-- The window identity of lines 239-243: the bare `sequence_id` when only
one subset results, otherwise `f"{seq_id}_subset{subset_idx}"`. -/
def windowId (seqId : String) (numSubsets i : Nat) : String :=
  if numSubsets = 1 then seqId else seqId ++ "_subset" ++ toString i

/-- The subset loop of lines 231-260: split the collected pairs into
`len // N` consecutive windows of `N` coordinates, emitting a row and (for a
non-empty frame chunk) a frame-range record for each. -/
def buildSubsets (N : Nat) (matchId : String) (seq : PSeq) (normFlag : Bool)
    (pairs : List (Coord × Int)) : List WindowRow × List FrameRangeRow :=
  let numSubsets := pairs.length / N
  let coordsAll := pairs.map Prod.fst
  let framesAll := pairs.map Prod.snd
  let rows := (List.range numSubsets).map fun i =>
    { match_id := matchId
      sequence_id := windowId seq.sequence_id numSubsets i
      team_id := seq.team_id
      attacking_side := seq.attacking_side
      normalized := normFlag
      num_positions := N
      coordinates := (coordsAll.drop (i * N)).take N : WindowRow }
  let ranges := (List.range numSubsets).filterMap fun i =>
    let sf := (framesAll.drop (i * N)).take N
    sf.head?.map fun f0 =>
      { match_id := matchId
        sequence_id := windowId seq.sequence_id numSubsets i
        start_frame := f0
        end_frame := sf.getLastD f0 : FrameRangeRow }
  (rows, ranges)

/-- The body of the sequence loop of `extract_sequences_with_n_positions`
(lines 202-260) for one sequence: skip the sequence when it has fewer than
`N` frames, otherwise normalize it (propagating any `TypeError`), collect the
resolvable coordinate pairs in frame order, and build windows when at least
`N` pairs were found. -/
def processSequence (N : Nat) (matchId : String) (seq : PSeq) :
    Except String (List WindowRow × List FrameRangeRow) :=
  if seq.frames.length < N then .ok ([], []) else
  match normalize_sequence_positions seq with
  | .error e => .error e
  | .ok nseq =>
    let pairs := collectPairs seq.frames nseq.positions
    if N ≤ pairs.length then
      .ok (buildSubsets N matchId seq (nseq.normalized.getD false) pairs)
    else
      .ok ([], [])

/-- `extract_sequences_with_n_positions` (lines 179-263) with
`return_frame_ranges=True`: run the loop body over every sequence,
concatenating the emitted rows and ranges in order (an exception in the loop
aborts the whole call). -/
def extract_sequences_with_n_positions (sequences : List PSeq) (N : Nat) (matchId : String) :
    Except String (List WindowRow × List FrameRangeRow) :=
  match sequences with
  | [] => .ok ([], [])
  | s :: rest =>
    match processSequence N matchId s with
    | .error e => .error e
    | .ok (r, g) =>
      match extract_sequences_with_n_positions rest N matchId with
      | .error e => .error e
      | .ok (rs, gs) => .ok (r ++ rs, g ++ gs)

/-- The number of frames of a sequence whose stored position array has at
least two entries — what the code's `len(coords) >= 2` test accepts, counted
on the sequence's own (un-normalized) positions. -/
def resolvableCount (seq : PSeq) : Nat :=
  (collectPairs seq.frames seq.positions).length

/-- The coordinate/frame pairs the window extractor works from: the result of
the collection loop on the sequence's normalized positions (or the
normalization error). -/
def resolvedPairs (seq : PSeq) : Except String (List (Coord × Int)) :=
  match normalize_sequence_positions seq with
  | .error e => .error e
  | .ok nseq => .ok (collectPairs seq.frames nseq.positions)

/-- A position array the flip treats losslessly: shorter than two entries
(passed through), or a fully non-null pair/triple.  Arrays outside this set
either raise (`null` among the first two entries) or lose entries (a `null`
third entry is dropped, a fourth and later entries always are). -/
def cleanCoordsArray : List (Option ℚ) → Bool
  | [] => true
  | [_] => true
  | [some _, some _] => true
  | [some _, some _, some _] => true
  | _ => false

/-! ## extract_Sequences_ball_positions.py — tracking-position resolver

One JSONL record of the tracking log.  A JSON value that might sit under a
frame key is a `JVal`: `null`, a value whose `int(...)`/`int(float(...))`
conversion succeeds with result `n` (`num n`), or a non-null value for which
both conversions raise (`bad`).  A value under a ball key is a `BallVal`:
either a JSON object with optional `x`/`y`/`z` members (each already passed
through `_safe_float`, so `none` covers an absent, null or unparsable axis
and `some q` a float value), or any non-object value (`nondict`), which the
`isinstance(…, dict)` guards reject. -/

inductive JVal
  | null
  | num (n : Int)
  | bad
deriving DecidableEq, Repr

/-- The integer a frame-key value converts to, if any. -/
def JVal.toInt? : JVal → Option Int
  | .num n => some n
  | _ => none

/-- The `ball_data` / `ball` object with `_safe_float`-normalized axes. -/
structure BallObj where
  x : Option ℚ
  y : Option ℚ
  z : Option ℚ
deriving DecidableEq, Repr

inductive BallVal
  | dict (b : BallObj)
  | nondict
deriving DecidableEq, Repr

/-- One parsed JSONL record: each field is `some v` when the key is present
in the object with value `v`, `none` when the key is absent. -/
structure TrackRecord where
  frame : Option JVal := none
  frame_idx : Option JVal := none
  frame_index : Option JVal := none
  ball_data : Option BallVal := none
  ball : Option BallVal := none
deriving DecidableEq, Repr

/-- The resolved `(x, y, z)` sample; `(none, none, none)` is the missing
sentinel. -/
abbrev BallPos := Option ℚ × Option ℚ × Option ℚ

def missingSentinel : BallPos := (none, none, none)

/-- Frame determination of the local-file branch (lines 178-188): walk the
candidate keys `frame`, `frame_idx`, `frame_index`; the first key *present in
the object* wins and its value is converted with `int`/`int(float)` — a
present key whose value does not convert (including `null`) yields `None`
without trying the later keys. -/
def parseFrameLocal (r : TrackRecord) : Option Int :=
  match r.frame with
  | some v => v.toInt?
  | none =>
    match r.frame_idx with
    | some v => v.toInt?
    | none =>
      match r.frame_index with
      | some v => v.toInt?
      | none => none

/-- Frame determination of the DataFrame branches (lines 120-130 and
export_sequences.py lines 230-240): identical except that the guard is
`k in obj and pd.notnull(obj[k])`, so a null (in a DataFrame: absent or NaN)
value under an earlier key is skipped and the later keys are still tried. -/
def parseFrameDF (r : TrackRecord) : Option Int :=
  match r.frame with
  | some v => if v ≠ .null then v.toInt? else
      match r.frame_idx with
      | some w => if w ≠ .null then w.toInt? else
          match r.frame_index with
          | some u => if u ≠ .null then u.toInt? else none
          | none => none
      | none =>
        match r.frame_index with
        | some u => if u ≠ .null then u.toInt? else none
        | none => none
  | none =>
    match r.frame_idx with
    | some w => if w ≠ .null then w.toInt? else
        match r.frame_index with
        | some u => if u ≠ .null then u.toInt? else none
        | none => none
    | none =>
      match r.frame_index with
      | some u => if u ≠ .null then u.toInt? else none
      | none => none

/-- Ball extraction (lines 196-218 and the two DataFrame copies): use
`ball_data` when present and a dict, else `ball` when present and a dict,
else all axes `None`. -/
def extractBall (r : TrackRecord) : BallPos :=
  match r.ball_data with
  | some (.dict bd) => (bd.x, bd.y, bd.z)
  | _ =>
    match r.ball with
    | some (.dict b) => (b.x, b.y, b.z)
    | _ => missingSentinel

/-- `results[frame] = (bx, by, bz)` on a Python dict: replace the value in
place when the key exists, append otherwise. -/
def upsert : List (Int × BallPos) → Int → BallPos → List (Int × BallPos)
  | [], k, v => [(k, v)]
  | (k', v') :: rest, k, v =>
    if k' = k then (k, v) :: rest else (k', v') :: upsert rest k v

/-- `frame in results` / `results[frame]` lookup. -/
def lookupFr : List (Int × BallPos) → Int → Option BallPos
  | [], _ => none
  | (k', v') :: rest, k => if k' = k then some v' else lookupFr rest k

/-- The final fill loop (lines 227-229): every wanted frame not yet in the
results is set to the missing sentinel.  (Python iterates the `wanted` set;
iterating the requested list visits the same frames, and repeated visits are
absorbed by the membership test.) -/
def fillMissing (m : List (Int × BallPos)) : List Int → List (Int × BallPos)
  | [] => m
  | f :: rest =>
    fillMissing (if (lookupFr m f).isSome then m else upsert m f missingSentinel) rest

/-- The local-file scan (lines 167-224): `none` lines are the blank or
JSON-unparsable ones, skipped; a record with no usable frame, or a frame not
in the wanted set, is skipped; otherwise the ball sample is recorded, the
frame added to `found`, and the scan stops once `found == wanted`. -/
def scanLines (wanted : Finset Int) :
    List (Option TrackRecord) → List (Int × BallPos) → Finset Int → List (Int × BallPos)
  | [], results, _ => results
  | l :: rest, results, found =>
    match l with
    | none => scanLines wanted rest results found
    | some r =>
      match parseFrameLocal r with
      | none => scanLines wanted rest results found
      | some fr =>
        if fr ∈ wanted then
          let results' := upsert results fr (extractBall r)
          let found' := insert fr found
          if found' = wanted then results' else scanLines wanted rest results' found'
        else
          scanLines wanted rest results found

/-- The URL-branch scan of `load_tracking_positions` (lines 118-163):
iterates DataFrame rows with the DataFrame frame determination, same
`found == wanted` early exit. -/
def scanRowsU (wanted : Finset Int) :
    List TrackRecord → List (Int × BallPos) → Finset Int → List (Int × BallPos)
  | [], results, _ => results
  | r :: rest, results, found =>
    match parseFrameDF r with
    | none => scanRowsU wanted rest results found
    | some fr =>
      if fr ∈ wanted then
        let results' := upsert results fr (extractBall r)
        let found' := insert fr found
        if found' = wanted then results' else scanRowsU wanted rest results' found'
      else
        scanRowsU wanted rest results found

/-- The scan of `extract_positions_from_dataframe`
(export_sequences.py lines 228-273): no `found` set; the early exit fires
when `len(results) == len(wanted)`. -/
def scanRowsD (wanted : Finset Int) :
    List TrackRecord → List (Int × BallPos) → List (Int × BallPos)
  | [], results => results
  | r :: rest, results =>
    match parseFrameDF r with
    | none => scanRowsD wanted rest results
    | some fr =>
      if fr ∈ wanted then
        let results' := upsert results fr (extractBall r)
        if results'.length = wanted.card then results' else scanRowsD wanted rest results'
      else
        scanRowsD wanted rest results

/-- The tracking source handed to `load_tracking_positions`: a URL whose
fetch either fails (`url none`) or yields DataFrame rows, or a local path
that either does not exist (`localFile none`, where `open` raises
`FileNotFoundError`) or holds the given lines. -/
inductive TrackSource
  | url (fetched : Option (List TrackRecord))
  | localFile (content : Option (List (Option TrackRecord)))

/-- `load_tracking_positions` (lines 97-231).  A failed URL fetch is caught
and every wanted frame mapped to the missing sentinel; a missing local file
raises `FileNotFoundError` out of the function; otherwise the matching scan
runs and the missing frames are filled afterwards. -/
def load_tracking_positions (src : TrackSource) (wanted_frames : List Int) :
    Except String (List (Int × BallPos)) :=
  match src with
  | .url none => .ok (fillMissing [] wanted_frames)
  | .url (some rows) =>
    .ok (fillMissing (scanRowsU wanted_frames.toFinset rows [] ∅) wanted_frames)
  | .localFile none => .error "FileNotFoundError"
  | .localFile (some lines) =>
    .ok (fillMissing (scanLines wanted_frames.toFinset lines [] ∅) wanted_frames)

/-- `extract_positions_from_dataframe` (export_sequences.py lines 220-280). -/
def extract_positions_from_dataframe (rows : List TrackRecord) (wanted_frames : List Int) :
    List (Int × BallPos) :=
  fillMissing (scanRowsD wanted_frames.toFinset rows []) wanted_frames

/-- The frames observed anywhere in a source: those some record of the log
resolves to under the branch's frame determination. -/
def observedFrames : TrackSource → List Int
  | .url none => []
  | .url (some rows) => rows.filterMap parseFrameDF
  | .localFile none => []
  | .localFile (some lines) => lines.filterMap fun l => l.bind parseFrameLocal

/-- A record none of whose frame keys holds a JSON `null` — the condition
under which the local and DataFrame frame determinations agree. -/
def frameKeysNullFree (r : TrackRecord) : Prop :=
  r.frame ≠ some .null ∧ r.frame_idx ≠ some .null ∧ r.frame_index ≠ some .null

instance (r : TrackRecord) : Decidable (frameKeysNullFree r) := by
  unfold frameKeysNullFree; infer_instance

/-! ## extract_Sequences_ball_positions.py — frame-set extraction -/

/-- One event as `extract_frame_numbers_from_sequence` reads it.
`frame_start` is the integer `_get_int_from_event_field(ev, ('frame_start',
'start_frame', 'start', 'frame'))` resolves (for a dict event), or `int(ev[0])`
(for a list/tuple event); `none` when the chain finds no parseable value.
`frame_end` likewise for `('frame_end', 'end_frame', 'end')` / `ev[1]`.
An event that is neither a dict nor a list has both fields `none`. -/
structure FrameEvent where
  frame_start : Option Int
  frame_end : Option Int
deriving DecidableEq, Repr

/-- Ascending sort used for `sorted(frames)` (Python's `sorted`; the exact
algorithm is irrelevant to the result on integers). -/
def sortAsc (l : List Int) : List Int := List.insertionSort (· ≤ ·) l

/-- `extract_frame_numbers_from_sequence` (lines 55-94).  `none` models a
falsy sequence, a missing `events` key or a non-list `events` value (all
returning `[]`); otherwise the result is `sorted(set(starts) ∪ {last_end})`
where `starts` are the events' parseable start frames and `last_end` the last
event's parseable end frame, if any. -/
def extract_frame_numbers_from_sequence (events? : Option (List FrameEvent)) : List Int :=
  match events? with
  | none => []
  | some events =>
    let starts := events.filterMap FrameEvent.frame_start
    let lastEnd := events.getLast?.bind FrameEvent.frame_end
    let frames := starts ++ (match lastEnd with | some e => [e] | none => [])
    sortAsc frames.dedup

/-! ## export_sequences.py — event segmentation -/

/-- One row of the dynamic-events CSV as the segmentation loop reads it.
`frame_start`/`frame_end` are `int(row[...])` when the cell is not NaN,
`None` otherwise. -/
structure DynEvent where
  event_id : Option Int
  player_id : Option Int
  team_id : Int
  event_type : String
  frame_start : Option Int
  frame_end : Option Int
  attacking_side : Option String
deriving DecidableEq, Repr

/-- The event dict stored in a sequence (lines 51-56): only `event_id`,
`player_id`, `frame_start`, `frame_end` are kept. -/
structure StoredEvent where
  event_id : Option Int
  player_id : Option Int
  frame_start : Option Int
  frame_end : Option Int
deriving DecidableEq, Repr

def mkStoredEvent (r : DynEvent) : StoredEvent :=
  ⟨r.event_id, r.player_id, r.frame_start, r.frame_end⟩

/-- One sequence under construction / emitted (lines 60-65). -/
structure SeqRec where
  sequence_id : Nat
  team_id : Int
  events : List StoredEvent
  attacking_side : Option String
deriving DecidableEq, Repr

/-- The loop state of lines 40-46 (the `seq_ids` / `included_idx` bookkeeping
labels the returned dataframe only and carries no information the claims
touch, so it is not modelled). -/
structure SegState where
  sequences : List SeqRec
  current : Option SeqRec
  seq_counter : Nat
  off_run_included : Nat
  off_run_excluded : Nat
deriving Repr

def initialSegState : SegState :=
  { sequences := [], current := none, seq_counter := 1
    off_run_included := 0, off_run_excluded := 0 }

/-- One iteration of the segmentation loop (lines 48-97). -/
def segStep (st : SegState) (r : DynEvent) : SegState :=
  match st.current with
  | none =>
    { st with
      current := some ⟨st.seq_counter, r.team_id, [mkStoredEvent r], r.attacking_side⟩
      seq_counter := st.seq_counter + 1
      off_run_included :=
        st.off_run_included + (if r.event_type = "off_ball_run" then 1 else 0) }
  | some cur =>
    if r.event_type = "off_ball_run" ∧ r.team_id ≠ cur.team_id then
      { st with off_run_excluded := st.off_run_excluded + 1 }
    else if r.team_id = cur.team_id then
      { st with
        current := some { cur with events := cur.events ++ [mkStoredEvent r] }
        off_run_included :=
          st.off_run_included + (if r.event_type = "off_ball_run" then 1 else 0) }
    else
      { st with
        sequences := st.sequences ++ [cur]
        current := some ⟨st.seq_counter, r.team_id, [mkStoredEvent r], r.attacking_side⟩
        seq_counter := st.seq_counter + 1
        off_run_included :=
          st.off_run_included + (if r.event_type = "off_ball_run" then 1 else 0) }

/-- The final flush of lines 99-100. -/
def allSequences (st : SegState) : List SeqRec :=
  st.sequences ++ (match st.current with | some c => [c] | none => [])

/-- The up-front filter of line 34: drop every `'on_ball_engagement'` event. -/
def filteredEvents (events : List DynEvent) : List DynEvent :=
  events.filter fun r => r.event_type ≠ "on_ball_engagement"

/-- The ascending `(frame_start, frame_end)` order of line 35, with NaN
(`none`) placed last as pandas does. -/
def optIntLe (a b : Option Int) : Bool :=
  match a, b with
  | none, none => true
  | none, some _ => false
  | some _, none => true
  | some x, some y => x ≤ y

def dynEventLe (a b : DynEvent) : Bool :=
  if a.frame_start = b.frame_start then optIntLe a.frame_end b.frame_end
  else optIntLe a.frame_start b.frame_start

/-- `sort_values(['frame_start', 'frame_end'])` of line 35, modelled as a
sort by `dynEventLe` (the claims do not depend on how equal keys are
ordered). -/
def sortDynEvents (l : List DynEvent) : List DynEvent :=
  List.insertionSort (fun a b => dynEventLe a b = true) l

/-- `export_sequences_for_match` (lines 13-116), reduced to its pure core:
filter out `on_ball_engagement`, sort, run the segmentation loop, flush, and
return the emitted sequences together with the `off_ball_run`
included/excluded tallies. -/
def export_sequences_for_match (events : List DynEvent) : List SeqRec × Nat × Nat :=
  let st := (sortDynEvents (filteredEvents events)).foldl segStep initialSegState
  (allSequences st, st.off_run_included, st.off_run_excluded)

/-- The concatenation, in emission order, of the event lists stored in a run
of sequences — everything the segmenter ever put into any sequence. -/
def storedEvents : List SeqRec → List StoredEvent
  | [] => []
  | s :: rest => s.events ++ storedEvents rest

/-- The events the segmenter keeps (folds into some sequence): an event is
removed from consideration exactly when it is an `off_ball_run` whose team
differs from the team of the currently open sequence (the team of the last
kept event). -/
def keptEvents : Option Int → List DynEvent → List DynEvent
  | _, [] => []
  | none, e :: rest => e :: keptEvents (some e.team_id) rest
  | some t, e :: rest =>
    if e.event_type = "off_ball_run" ∧ e.team_id ≠ t then keptEvents (some t) rest
    else e :: keptEvents (some e.team_id) rest

/-- The number of team-transition boundaries of a team label list: adjacent
pairs with different labels. -/
def teamBoundaries : List Int → Nat
  | [] => 0
  | [_] => 0
  | a :: b :: rest => (if a ≠ b then 1 else 0) + teamBoundaries (b :: rest)

/-! ## Concrete test inputs -/

/-- A `right_to_left` sequence whose only position is the missing sentinel
`[null, null, null]`, exactly as the resolver serializes an unresolved
frame. -/
def sentinelRtlSeq : PSeq :=
  { sequence_id := "7", team_id := some 1, attacking_side := some "right_to_left"
    frames := [10], positions := [("10", [none, none, none])] }

/-- A `left_to_right` sequence whose only position is the missing sentinel. -/
def sentinelLtrSeq : PSeq :=
  { sequence_id := "s", team_id := some 1, attacking_side := some "left_to_right"
    frames := [1], positions := [("1", [none, none, none])] }

/-- A sequence with one frame whose position array is too short to resolve. -/
def underfilledSeq : PSeq :=
  { sequence_id := "u", team_id := some 1, attacking_side := none
    frames := [1], positions := [("1", [some 1])] }

/-- A sequence with five resolvable coordinates on frames 1-5. -/
def fiveCoordSeq : PSeq :=
  { sequence_id := "f", team_id := some 2, attacking_side := none
    frames := [1, 2, 3, 4, 5]
    positions := [("1", [some 1, some 1]), ("2", [some 2, some 2]),
                  ("3", [some 3, some 3]), ("4", [some 4, some 4]),
                  ("5", [some 5, some 5])] }

/-- A sequence mixing the missing sentinel (frame 1) with two genuinely
resolvable coordinates (frames 2 and 3). -/
def mixedSeq : PSeq :=
  { sequence_id := "x", team_id := some 1, attacking_side := none
    frames := [1, 2, 3]
    positions := [("1", [none, none, none]), ("2", [some 2, some 3]),
                  ("3", [some 4, some 5])] }

/-- A `right_to_left` sequence holding a position with a null third entry. -/
def nullZSeq : PSeq :=
  { sequence_id := "9", team_id := some 1, attacking_side := some "right_to_left"
    frames := [1], positions := [("1", [some 1, some 2, none])] }

/-- A `right_to_left` sequence whose positions are all cleanly flippable. -/
def cleanRtlSeq : PSeq :=
  { sequence_id := "c", team_id := some 1, attacking_side := some "right_to_left"
    frames := [1, 2], positions := [("1", [some 1, some 2, some 3]), ("2", [some 4, some 5])] }

/-- A tracking record whose `frame` key holds JSON `null` while `frame_idx`
holds the usable value 5 — the shape on which the two resolvers diverge. -/
def nullFrameRec : TrackRecord :=
  { frame := some JVal.null, frame_idx := some (JVal.num 5)
    ball := some (BallVal.dict ⟨some 1, some 2, some 3⟩) }

/-- A tracking record for frame 10 with ball data `(4, 5, 6)`. -/
def frame10Rec : TrackRecord :=
  { frame := some (JVal.num 10), ball_data := some (BallVal.dict ⟨some 4, some 5, some 6⟩) }

/-- A local tracking source holding only the frame-10 record. -/
def frame10Source : TrackSource := TrackSource.localFile (some [some frame10Rec])

/-- The mapping the resolver returns for `frame10Source` on `{10, 11}`. -/
def frame10Result : List (Int × BallPos) :=
  [(10, (some 4, some 5, some 6)), (11, missingSentinel)]

/-- The coordinate/frame pairs `fiveCoordSeq` resolves. -/
def fiveCoordPairs : List (Coord × Int) :=
  [(⟨some 1, some 1, none⟩, 1), (⟨some 2, some 2, none⟩, 2), (⟨some 3, some 3, none⟩, 3),
   (⟨some 4, some 4, none⟩, 4), (⟨some 5, some 5, none⟩, 5)]

/-- The two windows `fiveCoordSeq` yields for `N = 2`. -/
def fiveCoordRows : List WindowRow :=
  [{ match_id := "m", sequence_id := "f_subset0", team_id := some 2, attacking_side := none
     normalized := false, num_positions := 2
     coordinates := [⟨some 1, some 1, none⟩, ⟨some 2, some 2, none⟩] },
   { match_id := "m", sequence_id := "f_subset1", team_id := some 2, attacking_side := none
     normalized := false, num_positions := 2
     coordinates := [⟨some 3, some 3, none⟩, ⟨some 4, some 4, none⟩] }]

/-- The two frame ranges `fiveCoordSeq` yields for `N = 2`. -/
def fiveCoordRanges : List FrameRangeRow :=
  [⟨"m", "f_subset0", 1, 2⟩, ⟨"m", "f_subset1", 3, 4⟩]

/-- A small dynamic-event stream: team 1 acts on frames 1 and 3, team 2 has
an interleaved `off_ball_run` on frame 2 and opens its own possession on
frame 4. -/
def demoEvents : List DynEvent :=
  [ ⟨some 101, some 9, 1, "pass", some 1, some 2, some "left_to_right"⟩,
    ⟨some 102, some 8, 2, "off_ball_run", some 2, some 3, some "right_to_left"⟩,
    ⟨some 103, some 7, 1, "carry", some 3, some 4, some "left_to_right"⟩,
    ⟨some 104, some 6, 2, "pass", some 4, some 5, some "right_to_left"⟩ ]

/-! ## Helper lemmas -/

theorem mem_sortAsc (l : List Int) (x : Int) : x ∈ sortAsc l ↔ x ∈ l :=
  (List.perm_insertionSort _ l).mem_iff

theorem sortAsc_sorted (l : List Int) : (sortAsc l).Sorted (· ≤ ·) :=
  List.sorted_insertionSort _ l

theorem sortAsc_nodup (l : List Int) (h : l.Nodup) : (sortAsc l).Nodup :=
  ((List.perm_insertionSort _ l).nodup_iff).mpr h

theorem flipCoordsArray_two_le {c c' : List (Option ℚ)} (h : flipCoordsArray c = .ok c') :
    2 ≤ c.length ↔ 2 ≤ c'.length := by
  match c with
  | [] => injection h with h'; subst h'; simp
  | [a] => injection h with h'; subst h'; simp
  | x :: y :: rest =>
    match x, y with
    | some xv, some yv =>
      injection h with h'
      subst h'
      cases hz : rest.headD none <;> simp [flipCoordsArray, hz]
    | some _, none => exact absurd h (by simp [flipCoordsArray])
    | none, some _ => exact absurd h (by simp [flipCoordsArray])
    | none, none => exact absurd h (by simp [flipCoordsArray])

theorem flipPositions_lookup {ps np : List (String × List (Option ℚ))}
    (h : flipPositions ps = .ok np) (key : String) :
    (lookupStr ps key = none ∧ lookupStr np key = none) ∨
    ∃ c c', lookupStr ps key = some c ∧ lookupStr np key = some c' ∧
      flipCoordsArray c = .ok c' := by
  induction ps generalizing np with
  | nil =>
    injection h with h'
    subst h'
    exact Or.inl ⟨rfl, rfl⟩
  | cons p rest ih =>
    obtain ⟨k, c⟩ := p
    simp only [flipPositions] at h
    cases hc : flipCoordsArray c with
    | error e => rw [hc] at h; exact absurd h (by simp)
    | ok c' =>
      rw [hc] at h
      cases hr : flipPositions rest with
      | error e => rw [hr] at h; exact absurd h (by simp)
      | ok r =>
        rw [hr] at h
        injection h with h'
        subst h'
        by_cases hk : k = key
        · exact Or.inr ⟨c, c', by simp [lookupStr, hk], by simp [lookupStr, hk], hc⟩
        · simpa [lookupStr, hk] using ih hr

theorem collectPairs_length_flip {ps np : List (String × List (Option ℚ))}
    (h : flipPositions ps = .ok np) (frames : List Int) :
    (collectPairs frames np).length = (collectPairs frames ps).length := by
  induction frames with
  | nil => rfl
  | cons fr rest ih =>
    simp only [collectPairs, List.filterMap_cons] at ih ⊢
    rcases flipPositions_lookup h (toString fr) with ⟨h1, h2⟩ | ⟨c, c', h1, h2, hflip⟩
    · simp only [h1, h2]; exact ih
    · by_cases hlen : 2 ≤ c.length
      · have hlen' : 2 ≤ c'.length := (flipCoordsArray_two_le hflip).mp hlen
        simp only [h1, h2, if_pos hlen, if_pos hlen', List.length_cons]
        rw [ih]
      · have hlen' : ¬ 2 ≤ c'.length := fun hx => hlen ((flipCoordsArray_two_le hflip).mpr hx)
        simp only [h1, h2, if_neg hlen, if_neg hlen']
        exact ih

theorem normalize_resolvable_length {seq nseq : PSeq}
    (h : normalize_sequence_positions seq = .ok nseq) :
    (collectPairs seq.frames nseq.positions).length = resolvableCount seq := by
  cases hs : seq.attacking_side with
  | none =>
    simp only [normalize_sequence_positions, hs, Except.ok.injEq] at h
    subst h; rfl
  | some side =>
    by_cases hf : should_flip_coordinates side = true
    · cases hp : flipPositions seq.positions with
      | error e => simp [normalize_sequence_positions, hs, hf, hp] at h
      | ok np =>
        simp only [normalize_sequence_positions, hs, hf, if_true, hp, Except.ok.injEq] at h
        subst h
        exact collectPairs_length_flip hp seq.frames
    · simp only [normalize_sequence_positions, hs, hf, if_false, Except.ok.injEq,
        Bool.false_eq_true] at h
      subst h
      rfl

theorem flip_clean_roundtrip (c : List (Option ℚ)) (h : cleanCoordsArray c = true) :
    ∃ c', flipCoordsArray c = .ok c' ∧ cleanCoordsArray c' = true ∧
      flipCoordsArray c' = .ok c := by
  match c with
  | [] => exact ⟨[], rfl, rfl, rfl⟩
  | [a] => exact ⟨[a], rfl, by cases a <;> rfl, rfl⟩
  | [x, y] =>
    match x, y with
    | some xv, some yv =>
      refine ⟨[some (-xv), some (-yv)], ?_, rfl, ?_⟩ <;>
        simp [flipCoordsArray, flip_x_coordinate, flip_y_coordinate]
    | some _, none => simp [cleanCoordsArray] at h
    | none, some _ => simp [cleanCoordsArray] at h
    | none, none => simp [cleanCoordsArray] at h
  | [x, y, z] =>
    match x, y, z with
    | some xv, some yv, some zv =>
      refine ⟨[some (-xv), some (-yv), some zv], ?_, rfl, ?_⟩ <;>
        simp [flipCoordsArray, flip_x_coordinate, flip_y_coordinate]
    | some _, some _, none => simp [cleanCoordsArray] at h
    | some _, none, _ => simp [cleanCoordsArray] at h
    | none, _, _ => simp [cleanCoordsArray] at h
  | x :: y :: z :: w :: rest => simp [cleanCoordsArray] at h

theorem flipPositions_clean_roundtrip (ps : List (String × List (Option ℚ)))
    (h : ∀ p ∈ ps, cleanCoordsArray p.2 = true) :
    ∃ np, flipPositions ps = .ok np ∧ flipPositions np = .ok ps := by
  induction ps with
  | nil => exact ⟨[], rfl, rfl⟩
  | cons p rest ih =>
    obtain ⟨k, c⟩ := p
    obtain ⟨c', hc1, _, hc2⟩ := flip_clean_roundtrip c (h (k, c) (by simp))
    obtain ⟨np', hr1, hr2⟩ := ih fun q hq => h q (by simp [hq])
    exact ⟨(k, c') :: np', by simp [flipPositions, hc1, hr1], by simp [flipPositions, hc2, hr2]⟩

theorem filterMap_eq_map_of_forall {α β : Type _} (l : List α) (f : α → Option β) (g : α → β)
    (h : ∀ a ∈ l, f a = some (g a)) : l.filterMap f = l.map g := by
  induction l with
  | nil => rfl
  | cons a rest ih =>
    rw [List.filterMap_cons, h a (by simp), List.map_cons,
      ih fun b hb => h b (by simp [hb])]

theorem chunk_length {α : Type _} (l : List α) (N i : Nat) (hi : i < l.length / N) :
    ((l.drop (i * N)).take N).length = N := by
  have h1 : (i + 1) * N ≤ l.length := by
    calc (i + 1) * N ≤ l.length / N * N := Nat.mul_le_mul_right N hi
    _ ≤ l.length := Nat.div_mul_le_self _ _
  rw [Nat.succ_mul] at h1
  simp only [List.length_take, List.length_drop]
  omega

theorem getLastD_of_ne_nil {α : Type _} (l : List α) (hne : l ≠ []) (d d' : α) :
    l.getLastD d = l.getLastD d' := by
  cases l with
  | nil => exact absurd rfl hne
  | cons a as =>
    rw [List.getLastD_eq_getLast?, List.getLastD_eq_getLast?, List.getLast?_cons]
    simp

theorem getLast?_eq_getLastD_of_ne_nil {α : Type _} (l : List α) (hne : l ≠ []) (d : α) :
    l.getLast? = some (l.getLastD d) := by
  cases l with
  | nil => exact absurd rfl hne
  | cons a as =>
    rw [List.getLastD_eq_getLast?, List.getLast?_cons]
    simp

theorem buildSubsets_spec (N : Nat) (matchId : String) (seq : PSeq) (nf : Bool)
    (pairs : List (Coord × Int)) (hN : 0 < N) :
    ((buildSubsets N matchId seq nf pairs).1.length = pairs.length / N) ∧
    ((buildSubsets N matchId seq nf pairs).2.length = pairs.length / N) ∧
    ∀ i, ∀ hi : i < (buildSubsets N matchId seq nf pairs).1.length,
      ∀ hi' : i < (buildSubsets N matchId seq nf pairs).2.length,
      (((buildSubsets N matchId seq nf pairs).1.get ⟨i, hi⟩).coordinates =
          ((pairs.map Prod.fst).drop (i * N)).take N) ∧
      (((buildSubsets N matchId seq nf pairs).1.get ⟨i, hi⟩).coordinates.length = N) ∧
      (((buildSubsets N matchId seq nf pairs).1.get ⟨i, hi⟩).num_positions = N) ∧
      (((buildSubsets N matchId seq nf pairs).1.get ⟨i, hi⟩).sequence_id =
          windowId seq.sequence_id (pairs.length / N) i) ∧
      (((buildSubsets N matchId seq nf pairs).2.get ⟨i, hi'⟩).sequence_id =
          windowId seq.sequence_id (pairs.length / N) i) ∧
      ((((pairs.map Prod.snd).drop (i * N)).take N).head? =
          some ((buildSubsets N matchId seq nf pairs).2.get ⟨i, hi'⟩).start_frame) ∧
      ((((pairs.map Prod.snd).drop (i * N)).take N).getLast? =
          some ((buildSubsets N matchId seq nf pairs).2.get ⟨i, hi'⟩).end_frame) := by
  have hchunk : ∀ i, i < pairs.length / N →
      (((pairs.map Prod.snd).drop (i * N)).take N).length = N := by
    intro i hi
    exact chunk_length (pairs.map Prod.snd) N i (by simpa using hi)
  have hrows : (buildSubsets N matchId seq nf pairs).1 =
      (List.range (pairs.length / N)).map (fun i =>
        { match_id := matchId
          sequence_id := windowId seq.sequence_id (pairs.length / N) i
          team_id := seq.team_id
          attacking_side := seq.attacking_side
          normalized := nf
          num_positions := N
          coordinates := ((pairs.map Prod.fst).drop (i * N)).take N : WindowRow }) := rfl
  have hranges : (buildSubsets N matchId seq nf pairs).2 =
      (List.range (pairs.length / N)).map (fun i =>
        { match_id := matchId
          sequence_id := windowId seq.sequence_id (pairs.length / N) i
          start_frame := (((pairs.map Prod.snd).drop (i * N)).take N).headD 0
          end_frame := (((pairs.map Prod.snd).drop (i * N)).take N).getLastD 0
          : FrameRangeRow }) := by
    apply filterMap_eq_map_of_forall
    intro i hmem
    have hi : i < pairs.length / N := by simpa using hmem
    have hlen := hchunk i hi
    have hne : ((pairs.map Prod.snd).drop (i * N)).take N ≠ [] := by
      intro hx
      rw [hx] at hlen
      simp at hlen
      omega
    obtain ⟨f0, fs, hsf⟩ := List.exists_cons_of_ne_nil hne
    simp only [hsf, List.head?_cons, Option.map_some', List.headD_cons]
    have := getLastD_of_ne_nil (f0 :: fs) (by simp) f0 0
    rw [this]
  refine ⟨by simp [hrows], by simp [hranges], ?_⟩
  intro i hi hi'
  have him : i < pairs.length / N := by
    rw [hrows] at hi
    simpa using hi
  have hgr : (buildSubsets N matchId seq nf pairs).1.get ⟨i, hi⟩ =
      { match_id := matchId
        sequence_id := windowId seq.sequence_id (pairs.length / N) i
        team_id := seq.team_id
        attacking_side := seq.attacking_side
        normalized := nf
        num_positions := N
        coordinates := ((pairs.map Prod.fst).drop (i * N)).take N : WindowRow } := by
    simp [hrows]
  have hgg : (buildSubsets N matchId seq nf pairs).2.get ⟨i, hi'⟩ =
      { match_id := matchId
        sequence_id := windowId seq.sequence_id (pairs.length / N) i
        start_frame := (((pairs.map Prod.snd).drop (i * N)).take N).headD 0
        end_frame := (((pairs.map Prod.snd).drop (i * N)).take N).getLastD 0
        : FrameRangeRow } := by
    simp [hranges]
  have hlen := hchunk i him
  have hne : ((pairs.map Prod.snd).drop (i * N)).take N ≠ [] := by
    intro hx
    rw [hx] at hlen
    simp at hlen
    omega
  obtain ⟨f0, fs, hsf⟩ := List.exists_cons_of_ne_nil hne
  refine ⟨by rw [hgr], ?_, by rw [hgr], by rw [hgr], by rw [hgg], ?_, ?_⟩
  · rw [hgr]
    exact chunk_length (pairs.map Prod.fst) N i (by simpa using him)
  · rw [hgg, hsf]
    simp
  · rw [hgg]
    exact getLast?_eq_getLastD_of_ne_nil _ hne 0

theorem lookupFr_upsert (m : List (Int × BallPos)) (k : Int) (v : BallPos) (q : Int) :
    lookupFr (upsert m k v) q = if k = q then some v else lookupFr m q := by
  induction m with
  | nil => rfl
  | cons p rest ih =>
    obtain ⟨a, b⟩ := p
    by_cases hak : a = k
    · subst hak
      by_cases haq : a = q <;> simp [upsert, lookupFr, haq]
    · have hup : upsert ((a, b) :: rest) k v = (a, b) :: upsert rest k v := by
        simp [upsert, hak]
      rw [hup]
      by_cases haq : a = q
      · subst haq
        have hkq : ¬ k = a := fun hx => hak hx.symm
        simp [lookupFr, hkq]
      · simp [lookupFr, haq, ih]

theorem length_upsert (m : List (Int × BallPos)) (k : Int) (v : BallPos) :
    (upsert m k v).length =
      if (lookupFr m k).isSome then m.length else m.length + 1 := by
  induction m with
  | nil => rfl
  | cons p rest ih =>
    obtain ⟨a, b⟩ := p
    by_cases hak : a = k
    · simp [upsert, lookupFr, hak]
    · simp only [upsert, if_neg hak, List.length_cons, lookupFr, ih]
      by_cases hX : (lookupFr rest k).isSome = true <;> simp [hX]

theorem lookupFr_fillMissing (wf : List Int) (m : List (Int × BallPos)) (k : Int) :
    lookupFr (fillMissing m wf) k =
      if (lookupFr m k).isSome then lookupFr m k
      else if k ∈ wf then some missingSentinel else none := by
  induction wf generalizing m with
  | nil =>
    cases hm : lookupFr m k <;> simp [fillMissing, hm]
  | cons f rest ih =>
    show lookupFr (fillMissing (if (lookupFr m f).isSome then m else upsert m f missingSentinel)
      rest) k = _
    by_cases hmf : (lookupFr m f).isSome = true
    · rw [if_pos hmf, ih]
      by_cases hmk : (lookupFr m k).isSome = true
      · simp [hmk]
      · by_cases hfk : f = k
        · subst hfk; exact absurd hmf hmk
        · have hkf : ¬ k = f := fun hx => hfk hx.symm
          simp [hmk, List.mem_cons, hkf]
    · rw [if_neg hmf, ih]
      by_cases hfk : f = k
      · subst hfk
        have hmk : ¬ (lookupFr m f).isSome = true := hmf
        simp [lookupFr_upsert, hmk]
      · have hlk : lookupFr (upsert m f missingSentinel) k = lookupFr m k := by
          rw [lookupFr_upsert, if_neg hfk]
        rw [hlk]
        by_cases hmk : (lookupFr m k).isSome = true
        · simp [hmk]
        · have hkf : ¬ k = f := fun hx => hfk hx.symm
          simp [hmk, List.mem_cons, hkf]

theorem scanLines_lookup_isSome (W : Finset Int) (lines : List (Option TrackRecord))
    (m : List (Int × BallPos)) (found : Finset Int) (k : Int)
    (h : (lookupFr (scanLines W lines m found) k).isSome = true) :
    (lookupFr m k).isSome = true ∨
      (k ∈ W ∧ k ∈ lines.filterMap fun l => l.bind parseFrameLocal) := by
  induction lines generalizing m found with
  | nil => exact Or.inl h
  | cons l rest ih =>
    cases l with
    | none => simpa using ih m found h
    | some r =>
      cases hpf : parseFrameLocal r with
      | none =>
        rw [show scanLines W (some r :: rest) m found = scanLines W rest m found by
          simp [scanLines, hpf]] at h
        rcases ih m found h with h' | ⟨hw, hmem⟩
        · exact Or.inl h'
        · exact Or.inr ⟨hw, by simp [List.filterMap_cons, hpf]; exact List.mem_filterMap.mp hmem⟩
      | some fr =>
        by_cases hw : fr ∈ W
        · have hup : ∀ q, (lookupFr (upsert m fr (extractBall r)) q).isSome = true →
              (lookupFr m q).isSome = true ∨ q = fr := by
            intro q hq
            rw [lookupFr_upsert] at hq
            by_cases hfq : fr = q
            · exact Or.inr hfq.symm
            · rw [if_neg hfq] at hq; exact Or.inl hq
          by_cases hex : insert fr found = W
          · rw [show scanLines W (some r :: rest) m found =
                upsert m fr (extractBall r) by simp [scanLines, hpf, hw, hex]] at h
            rcases hup k h with h' | h'
            · exact Or.inl h'
            · subst h'
              exact Or.inr ⟨hw, by simp [List.filterMap_cons, hpf]⟩
          · rw [show scanLines W (some r :: rest) m found =
                scanLines W rest (upsert m fr (extractBall r)) (insert fr found) by
                  simp [scanLines, hpf, hw, hex]] at h
            rcases ih _ _ h with h' | ⟨hw', hmem⟩
            · rcases hup k h' with h'' | h''
              · exact Or.inl h''
              · subst h''
                exact Or.inr ⟨hw, by simp [List.filterMap_cons, hpf]⟩
            · exact Or.inr ⟨hw', by simp [List.filterMap_cons, hpf]; exact Or.inr (List.mem_filterMap.mp hmem)⟩
        · rw [show scanLines W (some r :: rest) m found = scanLines W rest m found by
            simp [scanLines, hpf, hw]] at h
          rcases ih m found h with h' | ⟨hw', hmem⟩
          · exact Or.inl h'
          · exact Or.inr ⟨hw', by simp [List.filterMap_cons, hpf]; exact Or.inr (List.mem_filterMap.mp hmem)⟩

theorem scanRowsU_lookup_isSome (W : Finset Int) (rows : List TrackRecord)
    (m : List (Int × BallPos)) (found : Finset Int) (k : Int)
    (h : (lookupFr (scanRowsU W rows m found) k).isSome = true) :
    (lookupFr m k).isSome = true ∨ (k ∈ W ∧ k ∈ rows.filterMap parseFrameDF) := by
  induction rows generalizing m found with
  | nil => exact Or.inl h
  | cons r rest ih =>
    cases hpf : parseFrameDF r with
    | none =>
      rw [show scanRowsU W (r :: rest) m found = scanRowsU W rest m found by
        simp [scanRowsU, hpf]] at h
      rcases ih m found h with h' | ⟨hw, hmem⟩
      · exact Or.inl h'
      · exact Or.inr ⟨hw, by simp [List.filterMap_cons, hpf]; exact List.mem_filterMap.mp hmem⟩
    | some fr =>
      by_cases hw : fr ∈ W
      · have hup : ∀ q, (lookupFr (upsert m fr (extractBall r)) q).isSome = true →
            (lookupFr m q).isSome = true ∨ q = fr := by
          intro q hq
          rw [lookupFr_upsert] at hq
          by_cases hfq : fr = q
          · exact Or.inr hfq.symm
          · rw [if_neg hfq] at hq; exact Or.inl hq
        by_cases hex : insert fr found = W
        · rw [show scanRowsU W (r :: rest) m found =
              upsert m fr (extractBall r) by simp [scanRowsU, hpf, hw, hex]] at h
          rcases hup k h with h' | h'
          · exact Or.inl h'
          · subst h'
            exact Or.inr ⟨hw, by simp [List.filterMap_cons, hpf]⟩
        · rw [show scanRowsU W (r :: rest) m found =
              scanRowsU W rest (upsert m fr (extractBall r)) (insert fr found) by
                simp [scanRowsU, hpf, hw, hex]] at h
          rcases ih _ _ h with h' | ⟨hw', hmem⟩
          · rcases hup k h' with h'' | h''
            · exact Or.inl h''
            · subst h''
              exact Or.inr ⟨hw, by simp [List.filterMap_cons, hpf]⟩
          · exact Or.inr ⟨hw', by simp [List.filterMap_cons, hpf]; exact Or.inr (List.mem_filterMap.mp hmem)⟩
      · rw [show scanRowsU W (r :: rest) m found = scanRowsU W rest m found by
          simp [scanRowsU, hpf, hw]] at h
        rcases ih m found h with h' | ⟨hw', hmem⟩
        · exact Or.inl h'
        · exact Or.inr ⟨hw', by simp [List.filterMap_cons, hpf]; exact Or.inr (List.mem_filterMap.mp hmem)⟩

/-! ## Claims -/

/-- C1: the spec says a position whose primary axis pair is missing — in
particular the `(None, None, None)` sentinel the resolver itself produces —
passes through the `right_to_left` flip unchanged and without error.  The
code only passes through arrays shorter than two entries; the sentinel
serializes as `[null, null, null]`, length 3, so the flip negates `None` and
raises `TypeError`. -/
theorem normalize_raises_on_sentinel :
    normalize_sequence_positions sentinelRtlSeq = .error "TypeError" := by decide

/-- C2 counterexample: a sequence whose single frame is the missing sentinel
has zero resolvable coordinates in the claim's sense, yet with `N = 1` the
extractor emits one window, and that window's coordinate dict is the
sentinel's null pair — the `len(coords) >= 2` test accepts the length-3
sentinel array. -/
theorem window_keeps_sentinel_cex :
    (processSequence 1 "m" sentinelLtrSeq).map (fun p => p.1.length) = .ok 1 ∧
    (processSequence 1 "m" sentinelLtrSeq).map (fun p => p.1.map WindowRow.coordinates) =
      .ok [[{ x := none, y := none, z := none }]] := by
  exact ⟨by decide, by decide⟩

/-- C3 counterexample: for a missing local file the resolver raises
`FileNotFoundError` out of `load_tracking_positions` (the `open` at line 167
is not guarded), instead of returning the all-sentinel mapping the claim
describes. -/
theorem missing_local_file_raises_cex :
    load_tracking_positions (TrackSource.localFile none) [10] = .error "FileNotFoundError" := by
  decide

/-- C9 counterexample: flipping a `right_to_left` sequence twice is not the
identity on every position: a position `[1, 2, null]` loses its null third
entry on the first flip (`[-1, -2]`) and comes back as `[1, 2]`. -/
theorem double_flip_not_identity_cex :
    ((normalize_sequence_positions nullZSeq).bind normalize_sequence_positions).map
        PSeq.positions = .ok [("1", [some 1, some 2])] ∧
    ([("1", [some 1, some 2])] : List (String × List (Option ℚ))) ≠ nullZSeq.positions := by
  exact ⟨by decide, by decide⟩

/-- C10 counterexample: on a record whose `frame` key is JSON `null` and
whose `frame_idx` is 5, the line-scanning resolver breaks at the first
*present* frame key, fails to convert `null`, and skips the record (frame 5
becomes the sentinel), while the DataFrame resolver skips the null value,
reads `frame_idx`, and resolves frame 5 — the two mappings differ. -/
theorem resolver_divergence_cex :
    load_tracking_positions (TrackSource.localFile (some [some nullFrameRec])) [5]
        = .ok [(5, missingSentinel)] ∧
    extract_positions_from_dataframe [nullFrameRec] [5] = [(5, (some 1, some 2, some 3))] ∧
    (missingSentinel : BallPos) ≠ (some 1, some 2, some 3) := by
  refine ⟨by decide, by decide, by decide⟩

/-- C5: the frame-set extractor returns the sorted, de-duplicated set of all
events' parseable start frames plus only the last event's end frame; a
missing or non-list event list yields the empty set; and the spec's worked
example holds. -/
theorem frame_set_extraction_spec :
    (extract_frame_numbers_from_sequence none = [] ∧
     extract_frame_numbers_from_sequence (some []) = []) ∧
    (∀ events : List FrameEvent, ∀ x : Int,
      x ∈ extract_frame_numbers_from_sequence (some events) ↔
        (∃ e ∈ events, e.frame_start = some x) ∨
          events.getLast?.bind FrameEvent.frame_end = some x) ∧
    (∀ events : List FrameEvent,
      (extract_frame_numbers_from_sequence (some events)).Sorted (· ≤ ·) ∧
      (extract_frame_numbers_from_sequence (some events)).Nodup) ∧
    extract_frame_numbers_from_sequence
        (some [⟨some 10, some 20⟩, ⟨some 15, some 25⟩, ⟨some 30, some 40⟩]) =
      [10, 15, 30, 40] := by
  refine ⟨⟨rfl, rfl⟩, ?_, ?_, by decide⟩
  · intro events x
    show x ∈ sortAsc _ ↔ _
    rw [mem_sortAsc, List.mem_dedup, List.mem_append, List.mem_filterMap]
    cases h : events.getLast?.bind FrameEvent.frame_end with
    | none => simp [h]
    | some e => simp [h, eq_comm]
  · intro events
    exact ⟨sortAsc_sorted _, sortAsc_nodup _ (List.nodup_dedup _)⟩

/-- C2 (amended): the fixed-window extractor emits zero windows (and zero
frame ranges) for a sequence with fewer than `N` frames whose stored position
array has at least two entries — the code's notion of a resolvable
coordinate, which the length-3 `(None, None, None)` sentinel satisfies. -/
theorem window_excludes_underfilled (N : Nat) (matchId : String) (seq : PSeq)
    (rows : List WindowRow) (ranges : List FrameRangeRow)
    (h : processSequence N matchId seq = .ok (rows, ranges))
    (hlt : resolvableCount seq < N) :
    rows = [] ∧ ranges = [] := by
  by_cases hfr : seq.frames.length < N
  · simp only [processSequence, if_pos hfr, Except.ok.injEq, Prod.mk.injEq] at h
    exact ⟨h.1.symm, h.2.symm⟩
  · cases hn : normalize_sequence_positions seq with
    | error e => simp [processSequence, if_neg hfr, hn] at h
    | ok nseq =>
      have hlen := normalize_resolvable_length hn
      by_cases hp : N ≤ (collectPairs seq.frames nseq.positions).length
      · rw [hlen] at hp; omega
      · simp only [processSequence, if_neg hfr, hn, if_neg hp, Except.ok.injEq,
          Prod.mk.injEq] at h
        exact ⟨h.1.symm, h.2.symm⟩

/-- C2 witness: a sequence whose one position array is too short resolves
zero coordinates and is excluded. -/
theorem window_excludes_underfilled_witness :
    ∃ rows ranges, processSequence 1 "m" underfilledSeq = .ok (rows, ranges) ∧
      rows = [] ∧ ranges = [] :=
  ⟨[], [], by decide, window_excludes_underfilled 1 "m" underfilledSeq [] [] (by decide) (by decide)⟩

/-- C9 (amended): flipping a `right_to_left` sequence twice returns the
original coordinate values exactly, provided every position array is one the
flip treats losslessly: shorter than two entries, or a fully non-null pair
or triple.  (Arrays with a null first or second entry raise `TypeError`, and
a null third entry or any entry past the third is dropped by the first
flip.) -/
theorem double_flip_roundtrip (seq : PSeq)
    (hside : seq.attacking_side = some "right_to_left")
    (hclean : ∀ p ∈ seq.positions, cleanCoordsArray p.2 = true) :
    ∃ s1 s2, normalize_sequence_positions seq = .ok s1 ∧
      normalize_sequence_positions s1 = .ok s2 ∧
      s2.positions = seq.positions ∧ s2.normalized = some true := by
  obtain ⟨np, h1, h2⟩ := flipPositions_clean_roundtrip seq.positions hclean
  have hflip : should_flip_coordinates "right_to_left" = true := by rfl
  refine ⟨{ seq with positions := np, normalized := some true },
          { seq with positions := seq.positions, normalized := some true }, ?_, ?_, rfl, rfl⟩
  · simp [normalize_sequence_positions, hside, hflip, h1]
  · simp [normalize_sequence_positions, hside, hflip, h2]

/-- C9 witness: the round trip at a concrete cleanly-flippable sequence. -/
theorem double_flip_roundtrip_witness :
    ∃ s1 s2, normalize_sequence_positions cleanRtlSeq = .ok s1 ∧
      normalize_sequence_positions s1 = .ok s2 ∧
      s2.positions = cleanRtlSeq.positions ∧ s2.normalized = some true :=
  double_flip_roundtrip cleanRtlSeq (by decide) (by decide)

/-- C8 counterexample: reading "resolvable" as the spec does (sentinels do
not count), `mixedSeq` has C = 2 resolvable coordinates (frames 2 and 3), so
at `N = 2` the claim demands one window holding exactly those two
coordinates.  The code's `len(coords) >= 2` test also accepts the frame-1
sentinel, so the single emitted window instead starts with the sentinel's
null pair and omits the last resolvable coordinate. -/
theorem fixed_window_claim_cex :
    (processSequence 2 "m" mixedSeq).map (fun p => p.1.map WindowRow.coordinates) =
      .ok [[⟨none, none, none⟩, ⟨some 2, some 3, none⟩]] ∧
    ([⟨none, none, none⟩, ⟨some 2, some 3, none⟩] : List Coord) ≠
      [⟨some 2, some 3, none⟩, ⟨some 4, some 5, none⟩] := by
  exact ⟨by decide, by decide⟩

/-- C8 (amended): for a sequence with `C` resolvable coordinates — in the
code's sense, frames whose stored position array has at least two entries,
which the `(None, None, None)` sentinel satisfies — and window length
`N > 0`, the extractor yields exactly `C / N` windows and as many frame
ranges; window `i` holds exactly the `i`-th consecutive chunk of `N`
coordinates, its identity is the bare `sequence_id` when one window results
and `sequence_id ++ "_subset" ++ i` otherwise, and its frame-range record
carries the first and last frame the chunk spans. -/
theorem fixed_window_layout (N : Nat) (matchId : String) (seq : PSeq)
    (rows : List WindowRow) (ranges : List FrameRangeRow) (pairs : List (Coord × Int))
    (hN : 0 < N)
    (h : processSequence N matchId seq = .ok (rows, ranges))
    (hp : resolvedPairs seq = .ok pairs) :
    pairs.length = resolvableCount seq ∧
    rows.length = pairs.length / N ∧
    ranges.length = rows.length ∧
    ∀ i, ∀ hi : i < rows.length, ∀ hi' : i < ranges.length,
      ((rows.get ⟨i, hi⟩).coordinates = ((pairs.map Prod.fst).drop (i * N)).take N) ∧
      ((rows.get ⟨i, hi⟩).coordinates.length = N) ∧
      ((rows.get ⟨i, hi⟩).num_positions = N) ∧
      ((rows.get ⟨i, hi⟩).sequence_id = windowId seq.sequence_id rows.length i) ∧
      ((ranges.get ⟨i, hi'⟩).sequence_id = (rows.get ⟨i, hi⟩).sequence_id) ∧
      ((((pairs.map Prod.snd).drop (i * N)).take N).head? =
        some (ranges.get ⟨i, hi'⟩).start_frame) ∧
      ((((pairs.map Prod.snd).drop (i * N)).take N).getLast? =
        some (ranges.get ⟨i, hi'⟩).end_frame) := by
  cases hn : normalize_sequence_positions seq with
  | error e => simp [resolvedPairs, hn] at hp
  | ok nseq =>
    simp only [resolvedPairs, hn, Except.ok.injEq] at hp
    subst hp
    have hres : (collectPairs seq.frames nseq.positions).length = resolvableCount seq :=
      normalize_resolvable_length hn
    by_cases hfr : seq.frames.length < N
    · have hcnt : (collectPairs seq.frames nseq.positions).length < N :=
        lt_of_le_of_lt (List.length_filterMap_le _ seq.frames) hfr
      simp only [processSequence, if_pos hfr, Except.ok.injEq, Prod.mk.injEq] at h
      obtain ⟨hr, hg⟩ := h
      subst hr
      subst hg
      refine ⟨hres, by simp [Nat.div_eq_of_lt hcnt], by simp, ?_⟩
      intro i hi hi'
      simp at hi
    · by_cases hq : N ≤ (collectPairs seq.frames nseq.positions).length
      · simp only [processSequence, if_neg hfr, hn, if_pos hq, Except.ok.injEq] at h
        have hr : (buildSubsets N matchId seq (nseq.normalized.getD false)
            (collectPairs seq.frames nseq.positions)).1 = rows := by rw [h]
        have hg : (buildSubsets N matchId seq (nseq.normalized.getD false)
            (collectPairs seq.frames nseq.positions)).2 = ranges := by rw [h]
        obtain ⟨hB1, hB2, hB3⟩ :=
          buildSubsets_spec N matchId seq (nseq.normalized.getD false)
            (collectPairs seq.frames nseq.positions) hN
        subst hr
        subst hg
        refine ⟨hres, hB1, by rw [hB1, hB2], ?_⟩
        intro i hi hi'
        obtain ⟨g1, g2, g3, g4, g5, g6, g7⟩ := hB3 i hi hi'
        exact ⟨g1, g2, g3, by rw [g4, hB1], by rw [g5, g4], g6, g7⟩
      · have hcnt : (collectPairs seq.frames nseq.positions).length < N := by omega
        simp only [processSequence, if_neg hfr, hn, if_neg hq, Except.ok.injEq,
          Prod.mk.injEq] at h
        obtain ⟨hr, hg⟩ := h
        subst hr
        subst hg
        refine ⟨hres, by simp [Nat.div_eq_of_lt hcnt], by simp, ?_⟩
        intro i hi hi'
        simp at hi

/-- C8 witness: the layout at `N = 2` on the five-coordinate sequence. -/
theorem fixed_window_layout_witness :
    fiveCoordPairs.length = resolvableCount fiveCoordSeq ∧
    fiveCoordRows.length = fiveCoordPairs.length / 2 ∧
    fiveCoordRanges.length = fiveCoordRows.length ∧
    ∀ i, ∀ hi : i < fiveCoordRows.length, ∀ hi' : i < fiveCoordRanges.length,
      ((fiveCoordRows.get ⟨i, hi⟩).coordinates =
        ((fiveCoordPairs.map Prod.fst).drop (i * 2)).take 2) ∧
      ((fiveCoordRows.get ⟨i, hi⟩).coordinates.length = 2) ∧
      ((fiveCoordRows.get ⟨i, hi⟩).num_positions = 2) ∧
      ((fiveCoordRows.get ⟨i, hi⟩).sequence_id =
        windowId fiveCoordSeq.sequence_id fiveCoordRows.length i) ∧
      ((fiveCoordRanges.get ⟨i, hi'⟩).sequence_id = (fiveCoordRows.get ⟨i, hi⟩).sequence_id) ∧
      ((((fiveCoordPairs.map Prod.snd).drop (i * 2)).take 2).head? =
        some (fiveCoordRanges.get ⟨i, hi'⟩).start_frame) ∧
      ((((fiveCoordPairs.map Prod.snd).drop (i * 2)).take 2).getLast? =
        some (fiveCoordRanges.get ⟨i, hi'⟩).end_frame) :=
  fixed_window_layout 2 "m" fiveCoordSeq fiveCoordRows fiveCoordRanges fiveCoordPairs
    (by decide) (by decide) (by decide)

/-- C3 (amended): when the remote fetch fails, the resolver catches the
error and returns every requested frame mapped to the missing sentinel, with
no unrequested key; a missing *local* file instead raises
`FileNotFoundError` out of the resolver (the caller pre-checks existence). -/
theorem failed_fetch_returns_sentinels (wanted : List Int) (f : Int) (hf : f ∈ wanted) :
    (∃ m, load_tracking_positions (TrackSource.url none) wanted = .ok m ∧
      lookupFr m f = some missingSentinel ∧
      ∀ g : Int, (lookupFr m g).isSome = true → g ∈ wanted) ∧
    load_tracking_positions (TrackSource.localFile none) wanted =
      .error "FileNotFoundError" := by
  refine ⟨⟨fillMissing [] wanted, rfl, ?_, ?_⟩, rfl⟩
  · rw [lookupFr_fillMissing]
    simp [lookupFr, hf]
  · intro g hg
    rw [lookupFr_fillMissing] at hg
    simp only [lookupFr, Option.isSome_none, Bool.false_eq_true, if_false] at hg
    by_cases hgw : g ∈ wanted
    · exact hgw
    · rw [if_neg hgw] at hg
      simp at hg

/-- C3 witness: the failed-fetch mapping at a concrete requested set. -/
theorem failed_fetch_returns_sentinels_witness :
    (∃ m, load_tracking_positions (TrackSource.url none) [3, 4] = .ok m ∧
      lookupFr m 3 = some missingSentinel ∧
      ∀ g : Int, (lookupFr m g).isSome = true → g ∈ [3, 4]) ∧
    load_tracking_positions (TrackSource.localFile none) [3, 4] =
      .error "FileNotFoundError" :=
  failed_fetch_returns_sentinels [3, 4] 3 (by decide)

/-- C4: whenever the resolver returns a mapping, its key set is exactly the
requested frame set — every requested frame is present, no unrequested frame
appears — and a requested frame never observed anywhere in the log maps to
the missing sentinel. -/
theorem resolver_key_set_exact (src : TrackSource) (wanted : List Int)
    (m : List (Int × BallPos)) (f : Int)
    (h : load_tracking_positions src wanted = .ok m) :
    ((lookupFr m f).isSome = true ↔ f ∈ wanted) ∧
    (f ∈ wanted → f ∉ observedFrames src → lookupFr m f = some missingSentinel) := by
  cases src with
  | url fetched =>
    cases fetched with
    | none =>
      simp only [load_tracking_positions, Except.ok.injEq] at h
      subst h
      constructor
      · rw [lookupFr_fillMissing]
        simp only [lookupFr, Option.isSome_none, Bool.false_eq_true, if_false]
        by_cases hfw : f ∈ wanted <;> simp [hfw]
      · intro hfw _
        rw [lookupFr_fillMissing]
        simp [lookupFr, hfw]
    | some rows =>
      simp only [load_tracking_positions, Except.ok.injEq] at h
      subst h
      have hscan := scanRowsU_lookup_isSome wanted.toFinset rows [] ∅ f
      constructor
      · rw [lookupFr_fillMissing]
        constructor
        · intro hs
          by_cases hres : (lookupFr (scanRowsU wanted.toFinset rows [] ∅) f).isSome = true
          · rcases hscan hres with h' | ⟨hw, _⟩
            · simp [lookupFr] at h'
            · exact List.mem_toFinset.mp hw
          · rw [if_neg hres] at hs
            by_cases hfw : f ∈ wanted
            · exact hfw
            · rw [if_neg hfw] at hs; simp at hs
        · intro hfw
          by_cases hres : (lookupFr (scanRowsU wanted.toFinset rows [] ∅) f).isSome = true
          · simp [hres]
          · simp [hres, hfw]
      · intro hfw hobs
        have hres : ¬ (lookupFr (scanRowsU wanted.toFinset rows [] ∅) f).isSome = true := by
          intro hs
          rcases hscan hs with h' | ⟨_, hmem⟩
          · simp [lookupFr] at h'
          · exact hobs hmem
        rw [lookupFr_fillMissing, if_neg hres, if_pos hfw]
  | localFile content =>
    cases content with
    | none => simp [load_tracking_positions] at h
    | some lines =>
      simp only [load_tracking_positions, Except.ok.injEq] at h
      subst h
      have hscan := scanLines_lookup_isSome wanted.toFinset lines [] ∅ f
      constructor
      · rw [lookupFr_fillMissing]
        constructor
        · intro hs
          by_cases hres : (lookupFr (scanLines wanted.toFinset lines [] ∅) f).isSome = true
          · rcases hscan hres with h' | ⟨hw, _⟩
            · simp [lookupFr] at h'
            · exact List.mem_toFinset.mp hw
          · rw [if_neg hres] at hs
            by_cases hfw : f ∈ wanted
            · exact hfw
            · rw [if_neg hfw] at hs; simp at hs
        · intro hfw
          by_cases hres : (lookupFr (scanLines wanted.toFinset lines [] ∅) f).isSome = true
          · simp [hres]
          · simp [hres, hfw]
      · intro hfw hobs
        have hres : ¬ (lookupFr (scanLines wanted.toFinset lines [] ∅) f).isSome = true := by
          intro hs
          rcases hscan hs with h' | ⟨_, hmem⟩
          · simp [lookupFr] at h'
          · exact hobs hmem
        rw [lookupFr_fillMissing, if_neg hres, if_pos hfw]

/-- C4 witness: a log holding frame 10 but not 11, requested `{10, 11}` —
frame 11 is requested, unobserved, and maps to the sentinel. -/
theorem resolver_key_set_exact_witness :
    ((lookupFr frame10Result 11).isSome = true ↔ 11 ∈ [(10 : Int), 11]) ∧
    (11 ∈ [(10 : Int), 11] → 11 ∉ observedFrames frame10Source →
      lookupFr frame10Result 11 = some missingSentinel) :=
  resolver_key_set_exact frame10Source [10, 11] frame10Result 11 (by decide)

theorem parseFrame_agree {r : TrackRecord} (h : frameKeysNullFree r) :
    parseFrameLocal r = parseFrameDF r := by
  obtain ⟨h1, h2, h3⟩ := h
  cases hf : r.frame with
  | some v =>
    have hv : ¬ v = JVal.null := by
      intro hx; subst hx; exact h1 hf
    simp [parseFrameLocal, parseFrameDF, hf, hv]
  | none =>
    cases hfi : r.frame_idx with
    | some w =>
      have hw : ¬ w = JVal.null := by
        intro hx; subst hx; exact h2 hfi
      simp [parseFrameLocal, parseFrameDF, hf, hfi, hw]
    | none =>
      cases hfx : r.frame_index with
      | some u =>
        have hu : ¬ u = JVal.null := by
          intro hx; subst hx; exact h3 hfx
        simp [parseFrameLocal, parseFrameDF, hf, hfi, hfx, hu]
      | none => simp [parseFrameLocal, parseFrameDF, hf, hfi, hfx]

theorem scanLines_eq_scanRowsD (W : Finset Int) (rows : List TrackRecord)
    (m : List (Int × BallPos)) (found : Finset Int)
    (hagree : ∀ r ∈ rows, parseFrameLocal r = parseFrameDF r)
    (hI1 : ∀ x : Int, x ∈ found ↔ (lookupFr m x).isSome = true)
    (hI2 : m.length = found.card)
    (hsub : found ⊆ W) :
    scanLines W (rows.map some) m found = scanRowsD W rows m := by
  induction rows generalizing m found with
  | nil => rfl
  | cons r rest ih =>
    have hag := hagree r (by simp)
    cases hpf : parseFrameLocal r with
    | none =>
      rw [show scanLines W ((r :: rest).map some) m found =
          scanLines W (rest.map some) m found by simp [scanLines, hpf],
        show scanRowsD W (r :: rest) m = scanRowsD W rest m by
          simp [scanRowsD, ← hag, hpf]]
      exact ih m found (fun q hq => hagree q (by simp [hq])) hI1 hI2 hsub
    | some fr =>
      by_cases hw : fr ∈ W
      · have hI1' : ∀ x : Int, x ∈ insert fr found ↔
            (lookupFr (upsert m fr (extractBall r)) x).isSome = true := by
          intro x
          rw [lookupFr_upsert, Finset.mem_insert]
          by_cases hfx : fr = x
          · simp [hfx]
          · have hxf : ¬ x = fr := fun hx => hfx hx.symm
            simp [hfx, hxf, hI1]
        have hI2' : (upsert m fr (extractBall r)).length = (insert fr found).card := by
          rw [length_upsert]
          by_cases hfin : fr ∈ found
          · rw [Finset.card_insert_of_mem hfin, if_pos ((hI1 fr).mp hfin), hI2]
          · have : ¬ (lookupFr m fr).isSome = true := fun hx => hfin ((hI1 fr).mpr hx)
            rw [Finset.card_insert_of_not_mem hfin, if_neg this, hI2]
        have hsub' : insert fr found ⊆ W := Finset.insert_subset hw hsub
        have hexit : (insert fr found = W) ↔
            ((upsert m fr (extractBall r)).length = W.card) := by
          constructor
          · intro hx; rw [hI2', hx]
          · intro hx
            rw [hI2'] at hx
            exact Finset.eq_of_subset_of_card_le hsub' (le_of_eq hx.symm)
        by_cases hex : insert fr found = W
        · rw [show scanLines W ((r :: rest).map some) m found =
              upsert m fr (extractBall r) by simp [scanLines, hpf, hw, hex],
            show scanRowsD W (r :: rest) m = upsert m fr (extractBall r) by
              simp [scanRowsD, ← hag, hpf, hw, hexit.mp hex]]
        · have hex' : ¬ (upsert m fr (extractBall r)).length = W.card :=
            fun hx => hex (hexit.mpr hx)
          rw [show scanLines W ((r :: rest).map some) m found =
              scanLines W (rest.map some) (upsert m fr (extractBall r)) (insert fr found) by
                simp [scanLines, hpf, hw, hex],
            show scanRowsD W (r :: rest) m =
              scanRowsD W rest (upsert m fr (extractBall r)) by
                simp [scanRowsD, ← hag, hpf, hw, hex']]
          exact ih _ _ (fun q hq => hagree q (by simp [hq])) hI1' hI2' hsub'
      · rw [show scanLines W ((r :: rest).map some) m found =
            scanLines W (rest.map some) m found by simp [scanLines, hpf, hw],
          show scanRowsD W (r :: rest) m = scanRowsD W rest m by
            simp [scanRowsD, ← hag, hpf, hw]]
        exact ih m found (fun q hq => hagree q (by simp [hq])) hI1 hI2 hsub

/-- C10 (amended): the line-scanning local-file resolver and the
DataFrame-based resolver return exactly the same mapping for every record
stream in which no record carries a JSON `null` under a frame-index key
(the one shape on which their frame determinations differ). -/
theorem resolver_equiv_null_free (rows : List TrackRecord) (wanted : List Int)
    (h : ∀ r ∈ rows, frameKeysNullFree r) :
    load_tracking_positions (TrackSource.localFile (some (rows.map some))) wanted =
      .ok (extract_positions_from_dataframe rows wanted) := by
  show Except.ok (fillMissing (scanLines wanted.toFinset (rows.map some) [] ∅) wanted) = _
  rw [scanLines_eq_scanRowsD wanted.toFinset rows [] ∅
    (fun r hr => parseFrame_agree (h r hr)) (by simp [lookupFr]) (by simp)
    (Finset.empty_subset _)]
  rfl

/-- C10 witness: equality of the two resolvers on a concrete null-free log. -/
theorem resolver_equiv_null_free_witness :
    load_tracking_positions (TrackSource.localFile (some ([frame10Rec].map some))) [10, 11] =
      .ok (extract_positions_from_dataframe [frame10Rec] [10, 11]) :=
  resolver_equiv_null_free [frame10Rec] [10, 11] (by decide)

theorem sortDynEvents_perm (l : List DynEvent) : List.Perm (sortDynEvents l) l :=
  List.perm_insertionSort _ l

theorem mem_sortDynEvents {l : List DynEvent} {e : DynEvent} :
    e ∈ sortDynEvents l ↔ e ∈ l :=
  (sortDynEvents_perm l).mem_iff

theorem sortDynEvents_eq_nil {l : List DynEvent} : sortDynEvents l = [] ↔ l = [] := by
  constructor
  · intro h
    have hp := sortDynEvents_perm l
    rw [h] at hp
    exact hp.symm.eq_nil
  · intro h
    subst h
    rfl

theorem seg_count_go (rest : List DynEvent) (st : SegState) (cur : SeqRec)
    (hcur : st.current = some cur) :
    (allSequences (rest.foldl segStep st)).length =
      st.sequences.length + 1 +
        teamBoundaries (cur.team_id ::
          (keptEvents (some cur.team_id) rest).map DynEvent.team_id) := by
  induction rest generalizing st cur with
  | nil => simp [allSequences, hcur, teamBoundaries]
  | cons e rest ih =>
    rw [List.foldl_cons]
    by_cases hskip : e.event_type = "off_ball_run" ∧ e.team_id ≠ cur.team_id
    · have hstep : segStep st e = { st with off_run_excluded := st.off_run_excluded + 1 } := by
        simp [segStep, hcur, hskip]
      have hkept : keptEvents (some cur.team_id) (e :: rest) =
          keptEvents (some cur.team_id) rest := by
        simp only [keptEvents, if_pos hskip]
      rw [hstep, hkept, ih _ cur (by simp [hcur])]
    · by_cases hteam : e.team_id = cur.team_id
      · have hstep : segStep st e =
            { st with current := some { cur with events := cur.events ++ [mkStoredEvent e] }
                      off_run_included := st.off_run_included +
                        (if e.event_type = "off_ball_run" then 1 else 0) } := by
          simp only [segStep, hcur]
          rw [if_neg hskip, if_pos hteam]
        have hkept : keptEvents (some cur.team_id) (e :: rest) =
            e :: keptEvents (some e.team_id) rest := by
          simp only [keptEvents, if_neg hskip]
        rw [hstep, hkept,
          ih _ { cur with events := cur.events ++ [mkStoredEvent e] } (by simp)]
        simp [teamBoundaries, hteam]
      · have hstep : segStep st e =
            { st with sequences := st.sequences ++ [cur]
                      current := some ⟨st.seq_counter, e.team_id, [mkStoredEvent e],
                        e.attacking_side⟩
                      seq_counter := st.seq_counter + 1
                      off_run_included := st.off_run_included +
                        (if e.event_type = "off_ball_run" then 1 else 0) } := by
          simp only [segStep, hcur]
          rw [if_neg hskip, if_neg hteam]
        have hkept : keptEvents (some cur.team_id) (e :: rest) =
            e :: keptEvents (some e.team_id) rest := by
          simp only [keptEvents, if_neg hskip]
        rw [hstep, hkept,
          ih _ ⟨st.seq_counter, e.team_id, [mkStoredEvent e], e.attacking_side⟩ (by simp)]
        have hne : cur.team_id ≠ e.team_id := fun hx => hteam hx.symm
        simp [teamBoundaries, hne]
        omega

/-- C6: for every event stream whose on-ball-engagement-free part is
non-empty, the segmenter emits exactly one more sequence than the number of
team-transition boundaries among the kept events — where an `off_ball_run`
whose team differs from the currently open sequence's team is removed from
consideration and creates no boundary. -/
theorem segmenter_count_boundaries (events : List DynEvent)
    (h : filteredEvents events ≠ []) :
    (export_sequences_for_match events).1.length =
      teamBoundaries ((keptEvents none (sortDynEvents (filteredEvents events))).map
        DynEvent.team_id) + 1 := by
  have hsort : sortDynEvents (filteredEvents events) ≠ [] := by
    intro hx
    exact h (sortDynEvents_eq_nil.mp hx)
  obtain ⟨e0, rest, hE⟩ := List.exists_cons_of_ne_nil hsort
  show (allSequences ((sortDynEvents (filteredEvents events)).foldl segStep
    initialSegState)).length = _
  rw [hE, List.foldl_cons]
  have hstep : segStep initialSegState e0 =
      { sequences := []
        current := some ⟨1, e0.team_id, [mkStoredEvent e0], e0.attacking_side⟩
        seq_counter := 2
        off_run_included := if e0.event_type = "off_ball_run" then 1 else 0
        off_run_excluded := 0 } := by
    simp [segStep, initialSegState]
  have hkept : keptEvents none (e0 :: rest) = e0 :: keptEvents (some e0.team_id) rest := by
    simp [keptEvents]
  rw [hstep, hkept,
    seg_count_go rest _ ⟨1, e0.team_id, [mkStoredEvent e0], e0.attacking_side⟩ (by simp)]
  simp [teamBoundaries]
  omega

/-- C6 witness: the demo stream has one kept-event boundary and two
sequences. -/
theorem segmenter_count_boundaries_witness :
    (export_sequences_for_match demoEvents).1.length =
      teamBoundaries ((keptEvents none (sortDynEvents (filteredEvents demoEvents))).map
        DynEvent.team_id) + 1 :=
  segmenter_count_boundaries demoEvents (by decide)

theorem storedEvents_append (l1 l2 : List SeqRec) :
    storedEvents (l1 ++ l2) = storedEvents l1 ++ storedEvents l2 := by
  induction l1 with
  | nil => rfl
  | cons s rest ih => simp [storedEvents, ih]

theorem seg_flatten_go (rest : List DynEvent) (st : SegState) (cur : SeqRec)
    (hcur : st.current = some cur) :
    storedEvents (allSequences (rest.foldl segStep st)) =
      storedEvents (allSequences st) ++
        (keptEvents (some cur.team_id) rest).map mkStoredEvent := by
  induction rest generalizing st cur with
  | nil => simp [keptEvents]
  | cons e rest ih =>
    rw [List.foldl_cons]
    by_cases hskip : e.event_type = "off_ball_run" ∧ e.team_id ≠ cur.team_id
    · have hstep : segStep st e =
          { st with off_run_excluded := st.off_run_excluded + 1 } := by
        simp [segStep, hcur, hskip]
      have hkept : keptEvents (some cur.team_id) (e :: rest) =
          keptEvents (some cur.team_id) rest := by
        simp only [keptEvents, if_pos hskip]
      rw [hstep, hkept, ih _ cur (by simp [hcur])]
      simp [allSequences]
    · by_cases hteam : e.team_id = cur.team_id
      · have hstep : segStep st e =
            { st with current := some { cur with events := cur.events ++ [mkStoredEvent e] }
                      off_run_included := st.off_run_included +
                        (if e.event_type = "off_ball_run" then 1 else 0) } := by
          simp only [segStep, hcur]
          rw [if_neg hskip, if_pos hteam]
        have hkept : keptEvents (some cur.team_id) (e :: rest) =
            e :: keptEvents (some e.team_id) rest := by
          simp only [keptEvents, if_neg hskip]
        rw [hstep, hkept,
          ih _ { cur with events := cur.events ++ [mkStoredEvent e] } (by simp)]
        simp [allSequences, storedEvents, storedEvents_append, hcur, hteam]
      · have hstep : segStep st e =
            { st with sequences := st.sequences ++ [cur]
                      current := some ⟨st.seq_counter, e.team_id, [mkStoredEvent e],
                        e.attacking_side⟩
                      seq_counter := st.seq_counter + 1
                      off_run_included := st.off_run_included +
                        (if e.event_type = "off_ball_run" then 1 else 0) } := by
          simp only [segStep, hcur]
          rw [if_neg hskip, if_neg hteam]
        have hkept : keptEvents (some cur.team_id) (e :: rest) =
            e :: keptEvents (some e.team_id) rest := by
          simp only [keptEvents, if_neg hskip]
        rw [hstep, hkept,
          ih _ ⟨st.seq_counter, e.team_id, [mkStoredEvent e], e.attacking_side⟩ (by simp)]
        simp [allSequences, storedEvents, storedEvents_append, hcur]

theorem seg_excl_go (rest : List DynEvent) (st : SegState) (cur : SeqRec)
    (hcur : st.current = some cur) :
    (rest.foldl segStep st).off_run_excluded +
        (keptEvents (some cur.team_id) rest).length =
      st.off_run_excluded + rest.length := by
  induction rest generalizing st cur with
  | nil => simp [keptEvents]
  | cons e rest ih =>
    rw [List.foldl_cons]
    by_cases hskip : e.event_type = "off_ball_run" ∧ e.team_id ≠ cur.team_id
    · have hstep : segStep st e =
          { st with off_run_excluded := st.off_run_excluded + 1 } := by
        simp [segStep, hcur, hskip]
      have hkept : keptEvents (some cur.team_id) (e :: rest) =
          keptEvents (some cur.team_id) rest := by
        simp only [keptEvents, if_pos hskip]
      rw [hstep, hkept]
      have := ih { st with off_run_excluded := st.off_run_excluded + 1 } cur (by simp [hcur])
      simp at this
      simp [this]
      omega
    · by_cases hteam : e.team_id = cur.team_id
      · have hstep : segStep st e =
            { st with current := some { cur with events := cur.events ++ [mkStoredEvent e] }
                      off_run_included := st.off_run_included +
                        (if e.event_type = "off_ball_run" then 1 else 0) } := by
          simp only [segStep, hcur]
          rw [if_neg hskip, if_pos hteam]
        have hkept : keptEvents (some cur.team_id) (e :: rest) =
            e :: keptEvents (some e.team_id) rest := by
          simp only [keptEvents, if_neg hskip]
        rw [hstep, hkept]
        have := ih
          { st with current := some { cur with events := cur.events ++ [mkStoredEvent e] }
                    off_run_included := st.off_run_included +
                      (if e.event_type = "off_ball_run" then 1 else 0) }
          { cur with events := cur.events ++ [mkStoredEvent e] } (by simp)
        rw [hteam]
        simp at this
        simp [this]
        omega
      · have hstep : segStep st e =
            { st with sequences := st.sequences ++ [cur]
                      current := some ⟨st.seq_counter, e.team_id, [mkStoredEvent e],
                        e.attacking_side⟩
                      seq_counter := st.seq_counter + 1
                      off_run_included := st.off_run_included +
                        (if e.event_type = "off_ball_run" then 1 else 0) } := by
          simp only [segStep, hcur]
          rw [if_neg hskip, if_neg hteam]
        have hkept : keptEvents (some cur.team_id) (e :: rest) =
            e :: keptEvents (some e.team_id) rest := by
          simp only [keptEvents, if_neg hskip]
        rw [hstep, hkept]
        have := ih
          { st with sequences := st.sequences ++ [cur]
                    current := some ⟨st.seq_counter, e.team_id, [mkStoredEvent e],
                      e.attacking_side⟩
                    seq_counter := st.seq_counter + 1
                    off_run_included := st.off_run_included +
                      (if e.event_type = "off_ball_run" then 1 else 0) }
          ⟨st.seq_counter, e.team_id, [mkStoredEvent e], e.attacking_side⟩ (by simp)
        simp at this
        simp [this]
        omega

theorem seg_homog_go (Q : StoredEvent → Int → Prop) (rest : List DynEvent) (st : SegState)
    (hst : ∀ S ∈ allSequences st, ∀ ev ∈ S.events, Q ev S.team_id)
    (hrest : ∀ r ∈ rest, Q (mkStoredEvent r) r.team_id) :
    ∀ S ∈ allSequences (rest.foldl segStep st), ∀ ev ∈ S.events, Q ev S.team_id := by
  induction rest generalizing st with
  | nil => exact hst
  | cons e rest ih =>
    rw [List.foldl_cons]
    refine ih (segStep st e) ?_ fun r hr => hrest r (by simp [hr])
    intro S hS ev hev
    cases hcur : st.current with
    | none =>
      have hall : allSequences (segStep st e) =
          st.sequences ++ [⟨st.seq_counter, e.team_id, [mkStoredEvent e], e.attacking_side⟩] := by
        simp [segStep, hcur, allSequences]
      rw [hall] at hS
      rcases List.mem_append.mp hS with h1 | h2
      · exact hst S (by simp [allSequences, hcur, h1]) ev hev
      · simp only [List.mem_singleton] at h2
        subst h2
        simp only [List.mem_singleton] at hev
        subst hev
        exact hrest e (by simp)
    | some cur =>
      have hcurmem : cur ∈ allSequences st := by simp [allSequences, hcur]
      by_cases hskip : e.event_type = "off_ball_run" ∧ e.team_id ≠ cur.team_id
      · have hall : allSequences (segStep st e) = allSequences st := by
          simp [segStep, hcur, hskip, allSequences]
        rw [hall] at hS
        exact hst S hS ev hev
      · by_cases hteam : e.team_id = cur.team_id
        · have hall : allSequences (segStep st e) =
              st.sequences ++ [{ cur with events := cur.events ++ [mkStoredEvent e] }] := by
            simp [segStep, hcur, hskip, hteam, allSequences]
          rw [hall] at hS
          rcases List.mem_append.mp hS with h1 | h2
          · exact hst S (by simp [allSequences, hcur, h1]) ev hev
          · simp only [List.mem_singleton] at h2
            subst h2
            simp only at hev
            rcases List.mem_append.mp hev with h3 | h4
            · exact hst cur hcurmem ev h3
            · simp only [List.mem_singleton] at h4
              subst h4
              have := hrest e (by simp)
              simpa [hteam] using this
        · have hall : allSequences (segStep st e) =
              (st.sequences ++ [cur]) ++
                [⟨st.seq_counter, e.team_id, [mkStoredEvent e], e.attacking_side⟩] := by
            simp only [segStep, hcur]
            rw [if_neg hskip, if_neg hteam]
            simp [allSequences]
          rw [hall] at hS
          rcases List.mem_append.mp hS with h1 | h2
          · rcases List.mem_append.mp h1 with h3 | h4
            · exact hst S (by simp [allSequences, hcur, h3]) ev hev
            · simp only [List.mem_singleton] at h4
              subst h4
              exact hst S hcurmem ev hev
          · simp only [List.mem_singleton] at h2
            subst h2
            simp only [List.mem_singleton] at hev
            subst hev
            exact hrest e (by simp)

theorem seg_tally_go (rest : List DynEvent) (st : SegState) :
    (rest.foldl segStep st).off_run_included + (rest.foldl segStep st).off_run_excluded =
      st.off_run_included + st.off_run_excluded +
        rest.countP (fun r => r.event_type = "off_ball_run") := by
  induction rest generalizing st with
  | nil => simp
  | cons e rest ih =>
    rw [List.foldl_cons, ih, List.countP_cons]
    have hone : (segStep st e).off_run_included + (segStep st e).off_run_excluded =
        st.off_run_included + st.off_run_excluded +
          (if e.event_type = "off_ball_run" then 1 else 0) := by
      by_cases hoff : e.event_type = "off_ball_run"
      · cases hcur : st.current with
        | none =>
          simp [segStep, hcur, hoff]
          omega
        | some cur =>
          by_cases hskip : e.event_type = "off_ball_run" ∧ e.team_id ≠ cur.team_id
          · simp only [segStep, hcur, if_pos hskip]
            simp [hoff]
            omega
          · by_cases hteam : e.team_id = cur.team_id
            · simp only [segStep, hcur, if_neg hskip, if_pos hteam]
              simp [hoff]
              omega
            · simp only [segStep, hcur]
              rw [if_neg hskip, if_neg hteam]
              simp [hoff]
              omega
      · cases hcur : st.current with
        | none => simp [segStep, hcur, hoff]
        | some cur =>
          have hskip : ¬ (e.event_type = "off_ball_run" ∧ e.team_id ≠ cur.team_id) :=
            fun hx => hoff hx.1
          by_cases hteam : e.team_id = cur.team_id
          · simp only [segStep, hcur, if_neg hskip, if_pos hteam]
            simp [hoff]
          · simp only [segStep, hcur]
            rw [if_neg hskip, if_neg hteam]
            simp [hoff]
    rw [hone]
    by_cases hoff : e.event_type = "off_ball_run"
    · simp [hoff]
      omega
    · simp [hoff]

/-- C7: (1) every event stored in an emitted sequence originates from a kept
(non-on-ball-engagement) source event of that sequence's own team — the
stored lists are team-homogeneous; (2) the stored event lists, concatenated
in order, are *exactly* the kept events (those not removed as cross-team
`off_ball_run`s), so a removed cross-team `off_ball_run` appears in no
sequence's event list; (3) the excluded tally counts exactly the removed
events (`excluded + kept = filtered stream length`); and (4) the
included/excluded tallies account for every `off_ball_run` of the filtered
stream. -/
theorem segmenter_team_homogeneity (events : List DynEvent) :
    (∀ S ∈ (export_sequences_for_match events).1, ∀ ev ∈ S.events,
      ∃ r ∈ filteredEvents events, mkStoredEvent r = ev ∧ r.team_id = S.team_id) ∧
    (storedEvents (export_sequences_for_match events).1 =
      (keptEvents none (sortDynEvents (filteredEvents events))).map mkStoredEvent) ∧
    ((export_sequences_for_match events).2.2 +
        (keptEvents none (sortDynEvents (filteredEvents events))).length =
      (filteredEvents events).length) ∧
    ((export_sequences_for_match events).2.1 + (export_sequences_for_match events).2.2 =
      ((filteredEvents events).filter fun r => r.event_type = "off_ball_run").length) := by
  refine ⟨?_, ?_, ?_⟩
  · intro S hS ev hev
    refine seg_homog_go
      (fun ev t => ∃ r ∈ filteredEvents events, mkStoredEvent r = ev ∧ r.team_id = t)
      (sortDynEvents (filteredEvents events)) initialSegState ?_ ?_ S hS ev hev
    · intro S' hS'
      simp [allSequences, initialSegState] at hS'
    · intro r hr
      exact ⟨r, mem_sortDynEvents.mp hr, rfl, rfl⟩
  · by_cases hnil : filteredEvents events = []
    · have hs : sortDynEvents (filteredEvents events) = [] := sortDynEvents_eq_nil.mpr hnil
      show storedEvents (allSequences ((sortDynEvents (filteredEvents events)).foldl segStep
        initialSegState)) = _
      rw [hs]
      simp [allSequences, initialSegState, storedEvents, keptEvents]
    · have hsort : sortDynEvents (filteredEvents events) ≠ [] := by
        intro hx
        exact hnil (sortDynEvents_eq_nil.mp hx)
      obtain ⟨e0, rest, hE⟩ := List.exists_cons_of_ne_nil hsort
      have hstep : segStep initialSegState e0 =
          { sequences := []
            current := some ⟨1, e0.team_id, [mkStoredEvent e0], e0.attacking_side⟩
            seq_counter := 2
            off_run_included := if e0.event_type = "off_ball_run" then 1 else 0
            off_run_excluded := 0 } := by
        simp [segStep, initialSegState]
      have hkept : keptEvents none (e0 :: rest) =
          e0 :: keptEvents (some e0.team_id) rest := by
        simp [keptEvents]
      show storedEvents (allSequences ((sortDynEvents (filteredEvents events)).foldl segStep
        initialSegState)) = _
      rw [hE, List.foldl_cons, hstep, hkept,
        seg_flatten_go rest _ ⟨1, e0.team_id, [mkStoredEvent e0], e0.attacking_side⟩ (by simp)]
      simp [allSequences, storedEvents]
  · constructor
    · by_cases hnil : filteredEvents events = []
      · have hs : sortDynEvents (filteredEvents events) = [] := sortDynEvents_eq_nil.mpr hnil
        show ((sortDynEvents (filteredEvents events)).foldl segStep
          initialSegState).off_run_excluded + _ = _
        rw [hs, hnil]
        simp [initialSegState, keptEvents]
      · have hsort : sortDynEvents (filteredEvents events) ≠ [] := by
          intro hx
          exact hnil (sortDynEvents_eq_nil.mp hx)
        obtain ⟨e0, rest, hE⟩ := List.exists_cons_of_ne_nil hsort
        have hstep : segStep initialSegState e0 =
            { sequences := []
              current := some ⟨1, e0.team_id, [mkStoredEvent e0], e0.attacking_side⟩
              seq_counter := 2
              off_run_included := if e0.event_type = "off_ball_run" then 1 else 0
              off_run_excluded := 0 } := by
          simp [segStep, initialSegState]
        have hkept : keptEvents none (e0 :: rest) =
            e0 :: keptEvents (some e0.team_id) rest := by
          simp [keptEvents]
        have hlen : (sortDynEvents (filteredEvents events)).length =
            (filteredEvents events).length :=
          (sortDynEvents_perm (filteredEvents events)).length_eq
        show ((sortDynEvents (filteredEvents events)).foldl segStep
          initialSegState).off_run_excluded + _ = _
        rw [hE, List.foldl_cons, hstep, hkept, ← hlen, hE]
        have := seg_excl_go rest
          { sequences := []
            current := some ⟨1, e0.team_id, [mkStoredEvent e0], e0.attacking_side⟩
            seq_counter := 2
            off_run_included := if e0.event_type = "off_ball_run" then 1 else 0
            off_run_excluded := 0 }
          ⟨1, e0.team_id, [mkStoredEvent e0], e0.attacking_side⟩ (by simp)
        simp at this
        simp [List.length_cons]
        omega
    · have htally := seg_tally_go (sortDynEvents (filteredEvents events)) initialSegState
      have hcount : (sortDynEvents (filteredEvents events)).countP
          (fun r => r.event_type = "off_ball_run") =
          (filteredEvents events).countP (fun r => r.event_type = "off_ball_run") :=
        (sortDynEvents_perm (filteredEvents events)).countP_eq _
      show ((sortDynEvents (filteredEvents events)).foldl segStep
          initialSegState).off_run_included +
        ((sortDynEvents (filteredEvents events)).foldl segStep
          initialSegState).off_run_excluded = _
      rw [htally, hcount, List.countP_eq_length_filter]
      simp [initialSegState]

end AnalyticsCup
